import Mathlib

/-!
Verification of the client-side data-access layer of the YTracker desktop
client (file `src/hooks/useBridge.ts`): key canonicalization, request
coalescing, pagination merge, TTL caches, cache invalidation, tracker
search state transitions, and the timer event synchronizer.

The TypeScript is embedded shallowly: pure functions become Lean functions,
the module-level mutable state (promise maps, caches, React refs/state)
becomes explicit state records, and an `async` function is split at its
`await` points into a start step and a completion step that receives the
settled outcome of the awaited call.  JavaScript timestamps are `Nat`
milliseconds, and a pending promise is identified by a `Nat` id.
-/

namespace YTracker

/-- JSON-like values carried in a `TrackerFilterPayload`
(`Record<string, unknown>` in the source).  JavaScript distinguishes
`null` from `undefined`, and `stableSerialize` / `normalizeFilterPayload`
treat them differently, so both are modelled.  An object literal is an
insertion-ordered list of key/value fields. -/
inductive JsonValue where
  | null : JsonValue
  | undef : JsonValue
  | bool (b : Bool) : JsonValue
  | num (n : Int) : JsonValue
  | str (s : String) : JsonValue
  | arr (items : List JsonValue) : JsonValue
  | obj (fields : List (String × JsonValue)) : JsonValue

/-- Whether a value is JavaScript `undefined`. -/
def JsonValue.isUndef : JsonValue → Bool
  | .undef => true
  | _ => false

/-- Whether a value is JavaScript `null`. -/
def JsonValue.isNull : JsonValue → Bool
  | .null => true
  | _ => false

/-- One character of a JSON string literal, as produced by
`JSON.stringify`. -/
def jsonEscapeChar (c : Char) : String :=
  if c = '"' then "\\\""
  else if c = '\\' then "\\\\"
  else if c = '\n' then "\\n"
  else if c = '\t' then "\\t"
  else if c = '\r' then "\\r"
  else String.singleton c

/-- `JSON.stringify` applied to a string: the double-quoted, escaped
literal. -/
def jsonStringifyString (s : String) : String :=
  "\"" ++ String.join (s.data.map jsonEscapeChar) ++ "\""

/-- Serialized object entry record: original key, whether the value was
`undefined`, and the serialized value string. -/
abbrev SerializedField := String × Bool × String

/-- Key order used by `stableSerialize` for object entries.  The source
compares keys with `a.localeCompare(b)`; it is modelled by the code-point
order on strings, which agrees with it on the ASCII keys this layer
produces. -/
def fieldKeyLE (p q : String × Bool × String) : Prop := p.1 ≤ q.1

instance : DecidableRel fieldKeyLE := fun p q => inferInstanceAs (Decidable (p.1 ≤ q.1))

/-- The `.filter(([, v]) => v !== undefined).sort(([a], [b]) => a.localeCompare(b))`
pipeline of `stableSerialize`, acting on fields whose values are already
serialized.  Serializing a value first and sorting after is equivalent to
the source's sort-then-serialize because the comparator reads only the key
and the per-entry serialization is independent of entry order; lemma
`sortSerializedFields_map` below proves this commutation. -/
def sortSerializedFields (fields : List SerializedField) : List (String × String) :=
  ((fields.filter (fun e => !e.2.1)).insertionSort fieldKeyLE).map (fun e => (e.1, e.2.2))

mutual

/-- Stable serializer used to derive deterministic cache/de-duplication keys
from nested filter payloads (`stableSerialize` in the source):
`null`/`undefined` become the literal `null`; arrays serialize items in
order inside brackets; objects drop `undefined`-valued entries, sort the
rest by key, and render each as `quoted-key:serialized-value` inside
braces; primitives use their JSON form. -/
def stableSerialize : JsonValue → String
  | .null => "null"
  | .undef => "null"
  | .bool b => if b then "true" else "false"
  | .num n => toString n
  | .str s => jsonStringifyString s
  | .arr items => "[" ++ String.intercalate "," (serializeItems items) ++ "]"
  | .obj fields =>
      "\x7b" ++
        String.intercalate ","
          ((sortSerializedFields (serializeFields fields)).map
            (fun e => jsonStringifyString e.1 ++ ":" ++ e.2)) ++
        "\x7d"

/-- Serializes each array item in order (the `value.map(stableSerialize)`
of the source). -/
def serializeItems : List JsonValue → List String
  | [] => []
  | v :: rest => stableSerialize v :: serializeItems rest

/-- Serializes each object field's value in original entry order, keeping
the key and an `undefined`-value marker for the later filter step. -/
def serializeFields : List (String × JsonValue) → List SerializedField
  | [] => []
  | (k, v) :: rest => (k, v.isUndef, stableSerialize v) :: serializeFields rest

end

/-- Entrywise serialization of a field. -/
def serializeField (e : String × JsonValue) : SerializedField :=
  (e.1, e.2.isUndef, stableSerialize e.2)

/-- Order used by the source on raw (not yet serialized) object entries. -/
def rawKeyLE (p q : String × JsonValue) : Prop := p.1 ≤ q.1

instance : DecidableRel rawKeyLE := fun p q => inferInstanceAs (Decidable (p.1 ≤ q.1))

/-- Strict key order on raw object entries, used to show sorted entry lists
with distinct keys are unique. -/
def rawKeyLT (p q : String × JsonValue) : Prop := p.1 < q.1

instance : IsTotal (String × JsonValue) rawKeyLE :=
  ⟨fun a b => le_total a.1 b.1⟩

instance : IsTrans (String × JsonValue) rawKeyLE :=
  ⟨fun _ _ _ h₁ h₂ => le_trans h₁ h₂⟩

instance : IsAntisymm (String × JsonValue) rawKeyLT :=
  ⟨fun _ _ h₁ h₂ => absurd h₂ (lt_asymm h₁)⟩

/- ### Search option normalization and the canonical fetch key -/

def DEFAULT_ISSUE_QUERY_KEY : String := "__default__"

def DEFAULT_FILTER_KEY : String := "__nofilter__"

def SCROLL_ROOT_KEY : String := "__scroll_root__"

/-- `IssueSearchOptions` of the source: optional free-text query and
optional structured filter (a JavaScript object, modelled as an
insertion-ordered entry list).  `undefined` and `null` option members are
both modelled by `none`; where the source distingushes a present-but-null
entry value from an absent one, the `JsonValue.null` / `JsonValue.undef`
constructors carry the difference. -/
structure IssueSearchOptions where
  query : Option String
  filter : Option (List (String × JsonValue))

/-- JavaScript `String.prototype.trim`, modelled on the character list:
leading and trailing whitespace characters are removed.  (Defined here
rather than through the library's `String.trim` so that concrete runs
reduce inside the kernel.) -/
def jsTrim (s : String) : String :=
  String.mk
    (((s.data.dropWhile Char.isWhitespace).reverse.dropWhile
      Char.isWhitespace).reverse)

/-- Removes nullable/undefined filter entries before sending to backend
(`normalizeFilterPayload`); an empty result collapses to no filter. -/
def normalizeFilterPayload (filter : Option (List (String × JsonValue))) :
    Option (List (String × JsonValue)) :=
  match filter with
  | none => none
  | some fs =>
      let normalizedEntries := fs.filter (fun e => !e.2.isUndef && !e.2.isNull)
      if normalizedEntries.isEmpty then none else some normalizedEntries

/-- Canonicalizes issue search options and drops empty query/filter
combinations (`normalizeIssueOptions`): trims the query, collapses an
empty trimmed query to absent, normalizes the filter, and returns no
options when both are empty. -/
def normalizeIssueOptions (options : Option IssueSearchOptions) :
    Option IssueSearchOptions :=
  match options with
  | none => none
  | some o =>
      let query := o.query.map jsTrim
      let filter := normalizeFilterPayload o.filter
      let keptQuery := match query with
        | some s => if s.isEmpty then none else some s
        | none => none
      if keptQuery.isNone && filter.isNone then none
      else some ⟨keptQuery, filter⟩

/-- Builds a unique key for request de-duplication across
query/filter/scroll state (`getIssueFetchKey`).  A falsy (absent or empty)
query or filter falls back to its default token, and the scroll cursor is
trimmed with a root sentinel for the root page. -/
def getIssueFetchKey (options : Option IssueSearchOptions)
    (scrollId : Option String) : String :=
  let queryKey := match options with
    | some o => match o.query with
      | some q => if q.isEmpty then DEFAULT_ISSUE_QUERY_KEY else q
      | none => DEFAULT_ISSUE_QUERY_KEY
    | none => DEFAULT_ISSUE_QUERY_KEY
  let filterKey := match options with
    | some o => match o.filter with
      | some f => stableSerialize (.obj f)
      | none => DEFAULT_FILTER_KEY
    | none => DEFAULT_FILTER_KEY
  let normalizedScroll := match scrollId with
    | some s => if (jsTrim s).isEmpty then SCROLL_ROOT_KEY else jsTrim s
    | none => SCROLL_ROOT_KEY
  queryKey ++ "::" ++ filterKey ++ "::" ++ normalizedScroll

/-- The filter predicate applied by `normalizeFilterPayload`. -/
def keptEntry (e : String × JsonValue) : Bool := !e.2.isUndef && !e.2.isNull

/- ### Issue model and pagination merge -/

/-- Key/display pair used for issue status and priority. -/
structure EntityRef where
  key : String
  display : String
deriving DecidableEq

/-- Lightweight issue row used by list and summary views (`Issue`). -/
structure Issue where
  key : String
  summary : String
  description : String
  status : EntityRef
  priority : EntityRef
  tracked_seconds : Option Int
deriving DecidableEq

/-- JavaScript `Map<string, number>.set`, on a functional map model. -/
def mapSet (m : String → Option Nat) (k : String) (i : Nat) :
    String → Option Nat :=
  fun q => if q = k then some i else m q

/-- The index-building
`current.forEach((issue, index) => indexMap.set(issue.key, index))` loop of
`mergeIssueLists`, with the running index made explicit. -/
def buildIndexMapFrom : List Issue → Nat → (String → Option Nat) →
    (String → Option Nat)
  | [], _, m => m
  | issue :: rest, i, m => buildIndexMapFrom rest (i + 1) (mapSet m issue.key i)

/-- Index map derived from the current list, keyed by issue key. -/
def buildIndexMap (current : List Issue) : String → Option Nat :=
  buildIndexMapFrom current 0 (fun _ => none)

/-- The `incoming.forEach` loop of `mergeIssueLists`: an issue whose key is
already indexed replaces the entry at its recorded position; any other
issue is appended and its new position recorded. -/
def mergeLoop : List Issue → List Issue → (String → Option Nat) → List Issue
  | [], next, _ => next
  | issue :: rest, next, indexMap =>
      match indexMap issue.key with
      | some i => mergeLoop rest (next.set i issue) indexMap
      | none =>
          mergeLoop rest (next ++ [issue]) (mapSet indexMap issue.key next.length)

/-- Merges incoming issue pages into the current list while preserving
stable ordering (`mergeIssueLists`). -/
def mergeIssueLists (current incoming : List Issue) : List Issue :=
  if incoming.length = 0 then current
  else mergeLoop incoming current (buildIndexMap current)

/-- Position of the first entry with key `k`, the specification-side view
of the index map. -/
def keyIdx : List Issue → String → Option Nat
  | [], _ => none
  | a :: rest, k => if a.key = k then some 0 else (keyIdx rest k).map (· + 1)

/-- `idx` is exactly the first-position-by-key table of `next`, whose keys
are pairwise distinct: the loop invariant of `mergeIssueLists`. -/
def IndexMapOf (next : List Issue) (idx : String → Option Nat) : Prop :=
  (next.map Issue.key).Nodup ∧ ∀ k, idx k = keyIdx next k

/-- The entry an incoming page contributes for a current entry: the
incoming issue with the same key, when present. -/
def overrideBy (incoming : List Issue) (c : Issue) : Issue :=
  match incoming.find? (fun i => i.key == c.key) with
  | some i => i
  | none => c

/- ### In-flight request coalescing for issue pages -/

/-- Normalized issue page returned by paginated/scroll issue search
(`IssuePage`). -/
structure IssuePage where
  issues : List Issue
  nextScrollId : Option String
  totalCount : Option Int
  hasMore : Bool
deriving DecidableEq

/-- Module-level mutable state around `requestIssuePage`: the
`issueFetchPromises` map holding the pending promise per fetch key
(promises numbered by creation order), and the log of issued `get_issues`
invokes, recorded by fetch key. -/
structure FetchState where
  issueFetchPromises : String → Option Nat
  nextPromiseId : Nat
  getIssuesInvokes : List String

/-- `requestIssuePage`: the synchronous body up to returning the shared
promise.  A pending promise for the key is returned as-is; otherwise one
`get_issues` invoke is issued, and the fresh promise is registered under
the key and returned.  All callers that receive the same promise observe
that promise's one resolution or rejection. -/
def requestIssuePage (options : Option IssueSearchOptions)
    (scrollId : Option String) (s : FetchState) : Nat × FetchState :=
  match s.issueFetchPromises (getIssueFetchKey options scrollId) with
  | some p => (p, s)
  | none =>
      (s.nextPromiseId,
        { issueFetchPromises := fun q =>
            if q = getIssueFetchKey options scrollId then some s.nextPromiseId
            else s.issueFetchPromises q,
          nextPromiseId := s.nextPromiseId + 1,
          getIssuesInvokes :=
            s.getIssuesInvokes ++ [getIssueFetchKey options scrollId] })

/-- The `.finally` cleanup of `requestIssuePage`: once promise `p` for
`key` settles, the map entry is removed only if it still holds that same
promise. -/
def settleIssueFetch (key : String) (p : Nat) (s : FetchState) : FetchState :=
  if s.issueFetchPromises key = some p then
    { s with issueFetchPromises := fun q =>
        if q = key then none else s.issueFetchPromises q }
  else s

/-- A burst of sequential `requestIssuePage` calls with no settlement in
between — the single-threaded model of N concurrent callers that all issue
their call before the first promise settles. -/
def requestMany :
    List (Option IssueSearchOptions × Option String) → FetchState →
      List Nat × FetchState
  | [], s => ([], s)
  | c :: rest, s =>
      let r := requestIssuePage c.1 c.2 s
      let rs := requestMany rest r.2
      (r.1 :: rs.1, rs.2)

/- ### useTracker search/pagination state machine -/

/-- React state and refs of `useTracker`, plus the log of
`release_scroll_context` fire-and-forget invokes.  The two `async`
callbacks are split at their `await` into a start step (the synchronous
prefix) and a completion step receiving the settled outcome of
`requestIssuePage`. -/
structure TrackerState where
  issues : List Issue
  loading : Bool
  loadingMore : Bool
  error : Option String
  hasMore : Bool
  currentOptions : Option IssueSearchOptions
  nextScrollId : Option String
  releasedScrollIds : List String

/-- `releaseScrollSnapshot` with no explicit target: a falsy (absent or
empty) held cursor returns early; otherwise the cursor ref is cleared and
a release invoke fired (best effort, failures only logged). -/
def releaseScrollSnapshot (s : TrackerState) : TrackerState :=
  match s.nextScrollId with
  | none => s
  | some sid =>
      if sid.isEmpty then s
      else
        { s with
            nextScrollId := none,
            releasedScrollIds := s.releasedScrollIds ++ [sid] }

/-- `fetchIssues` up to its `await`: set loading, clear the error, resolve
and record the options (an absent argument reuses the current ones), and
release any held cursor.  Returns the new state and the options passed to
`requestIssuePage` (with a `null` cursor). -/
def fetchIssuesStart (arg : Option (Option IssueSearchOptions))
    (s : TrackerState) : TrackerState × Option IssueSearchOptions :=
  let s₁ : TrackerState := { s with loading := true, error := none }
  let resolved := match arg with
    | none => s₁.currentOptions
    | some o => normalizeIssueOptions o
  let s₂ : TrackerState := { s₁ with currentOptions := resolved }
  let s₃ := match s₂.nextScrollId with
    | none => s₂
    | some sid => if sid.isEmpty then s₂ else releaseScrollSnapshot s₂
  (s₃, resolved)

/-- `fetchIssues` after its `await` settles: an arriving page is applied
unconditionally — cursor, issues and hasMore are overwritten and `true`
returned; a failure empties the list, clears hasMore, surfaces the error
and returns `false`.  `loading` is cleared either way. -/
def fetchIssuesComplete (outcome : Except String IssuePage)
    (s : TrackerState) : TrackerState × Bool :=
  match outcome with
  | .ok page =>
      ({ s with
          nextScrollId := page.nextScrollId,
          issues := page.issues,
          hasMore := page.hasMore,
          loading := false }, true)
  | .error err =>
      ({ s with
          issues := [],
          hasMore := false,
          error := some err,
          loading := false }, false)

/-- `loadMore` up to its `await`: refuses (returning no cursor) while a
root fetch or another load-more is in flight or when no truthy cursor is
held; otherwise sets loadingMore, clears the error, and reports the cursor
to request with. -/
def loadMoreStart (s : TrackerState) : TrackerState × Option String :=
  if s.loading || s.loadingMore then (s, none)
  else
    match s.nextScrollId with
    | none => (s, none)
    | some sid =>
        if sid.isEmpty then (s, none)
        else
          ({ s with
              loadingMore := true,
              error := none }, some sid)

/-- `loadMore` after its `await` settles: a page updates the cursor and
hasMore and merges into the previous list, returning whether any issues
arrived; a failure surfaces the error and leaves list and cursor
untouched.  `loadingMore` is cleared either way. -/
def loadMoreComplete (outcome : Except String IssuePage) (s : TrackerState) :
    TrackerState × Bool :=
  match outcome with
  | .ok page =>
      ({ s with
          nextScrollId := page.nextScrollId,
          hasMore := page.hasMore,
          issues := mergeIssueLists s.issues page.issues,
          loadingMore := false }, decide (0 < page.issues.length))
  | .error err =>
      ({ s with
          error := some err,
          loadingMore := false }, false)

/-- Initial `useTracker` state. -/
def initialTrackerState : TrackerState :=
  ⟨[], false, false, none, false, none, none, []⟩

/-- Options of the spec's supersede scenario, first search. -/
def optionsK1 : IssueSearchOptions := ⟨some "K1", none⟩

/-- Options of the spec's supersede scenario, second search. -/
def optionsK2 : IssueSearchOptions := ⟨some "K2", none⟩

/-- Page answering the K1 search. -/
def pageK1 : IssuePage :=
  ⟨[⟨"K1-1", "from K1", "", ⟨"open", "Open"⟩, ⟨"normal", "Normal"⟩, none⟩],
    none, none, false⟩

/-- Page answering the K2 search. -/
def pageK2 : IssuePage :=
  ⟨[⟨"K2-1", "from K2", "", ⟨"open", "Open"⟩, ⟨"normal", "Normal"⟩, none⟩],
    none, none, false⟩

/- ### Timer state synchronizer (useTimer) -/

/-- Current timer snapshot emitted by the native timer event stream
(`TimerState`). -/
structure TimerState where
  active : Bool
  issue_key : Option String
  issue_summary : Option String
  start_time : Option Nat
  elapsed : Nat
deriving DecidableEq

/-- The `timer-tick` listener body: `setState(event.payload)` — the
arriving snapshot wholly replaces the held state. -/
def handleTimerTick (_state : TimerState) (payload : TimerState) :
    TimerState := payload

/-- Held local timer state after processing a sequence of push events in
arrival order. -/
def processTimerEvents (s : TimerState) (events : List TimerState) :
    TimerState :=
  events.foldl handleTimerTick s

/- ### Per-entity detail cache (TTL) -/

/-- A cached value with the timestamp of its fetch (`CacheEntry<T>`). -/
structure CacheEntry (T : Type) where
  data : T
  timestamp : Nat
deriving DecidableEq

/-- `CACHE_TTL_MS = 300 * 1000` — five-minute cache. -/
def CACHE_TTL_MS : Nat := 300 * 1000

/-- One per-issue cache map (a `Map<string, CacheEntry<T>>`). -/
def CMap (T : Type) := String → Option (CacheEntry T)

/-- `isFresh`: absent entries are stale; otherwise the age
`now - timestamp` must be under the TTL.  (In JavaScript a clock that went
backwards gives a negative age, which is below the TTL; truncated `Nat`
subtraction gives 0, reaching the same verdict.) -/
def isFresh {T : Type} (now : Nat) (entry : Option (CacheEntry T)) : Bool :=
  match entry with
  | none => false
  | some e => decide (now - e.timestamp < CACHE_TTL_MS)

/-- `getFreshCache`: returns fresh cached data; a stale entry is deleted
from the map and `null` returned. -/
def getFreshCache {T : Type} (m : CMap T) (key : String) (now : Nat) :
    Option T × CMap T :=
  match m key with
  | some entry =>
      if isFresh now (some entry) then (some entry.data, m)
      else (none, fun q => if q = key then none else m q)
  | none => (none, m)

/-- `setCache`: stores data under the key with the current timestamp. -/
def setCache {T : Type} (m : CMap T) (key : String) (data : T) (now : Nat) :
    CMap T :=
  fun q => if q = key then some ⟨data, now⟩ else m q

/-- `fetchWithCache`, with the awaited fetcher outcome passed in and the
number of fetcher invocations returned (0 or 1).  At the payload types this
cache is instantiated with (arrays), every cached value is truthy, so the
source's `if (cached)` test coincides with the `some` check. -/
def fetchWithCache {T E : Type} (m : CMap T) (key : String) (now : Nat)
    (fetchResult : Except E T) (forceRefresh : Bool) :
    Except E T × CMap T × Nat :=
  if forceRefresh then
    match fetchResult with
    | .ok d => (.ok d, setCache m key d now, 1)
    | .error e => (.error e, m, 1)
  else
    match getFreshCache m key now with
    | (some d, m₁) => (.ok d, m₁, 0)
    | (none, m₁) =>
        match fetchResult with
        | .ok d => (.ok d, setCache m₁ key d now, 1)
        | .error e => (.error e, m₁, 1)

/- ### Detail cache invalidation on mutations -/

/-- Simplified issue comment model (`Comment`). -/
structure Comment where
  id : String
  text : String
  author : String
  created_at : String
deriving DecidableEq

/-- Simplified issue attachment metadata (`Attachment`). -/
structure Attachment where
  id : String
  name : String
  url : String
  mime_type : Option String
deriving DecidableEq

/-- Issue transition option (`Transition`). -/
structure Transition where
  id : String
  name : String
  to_status : Option EntityRef
deriving DecidableEq

/-- Worklog entry DTO (`WorklogEntry`). -/
structure WorklogEntry where
  id : String
  date : String
  duration_seconds : Int
  comment : String
  author : String
deriving DecidableEq

/-- Checklist item representation (`ChecklistItem`). -/
structure ChecklistItem where
  id : String
  text : String
  checked : Bool
  assignee : Option String
  deadline : Option String
  deadline_type : Option String
  is_exceeded : Option Bool
  item_type : Option String
deriving DecidableEq

/-- The five independent per-issue maps of `detailCache`. -/
structure DetailCache where
  comments : CMap (List Comment)
  attachments : CMap (List Attachment)
  transitions : CMap (List Transition)
  worklogs : CMap (List WorklogEntry)
  checklist : CMap (List ChecklistItem)

/-- The `type` argument of `invalidateCache`. -/
inductive CacheSlot where
  | comments
  | attachments
  | transitions
  | worklogs
  | checklist
  | all
deriving DecidableEq

/-- JavaScript `Map.delete` on the functional map model. -/
def mapDelete {T : Type} (m : CMap T) (key : String) : CMap T :=
  fun q => if q = key then none else m q

/-- `invalidateCache`: deletes the targeted issue's entry from the named
map, or from all five maps for `all`. -/
def invalidateCache (issueKey : String) (type : CacheSlot) (c : DetailCache) :
    DetailCache :=
  { comments :=
      if type = .comments ∨ type = .all then mapDelete c.comments issueKey
      else c.comments,
    attachments :=
      if type = .attachments ∨ type = .all then mapDelete c.attachments issueKey
      else c.attachments,
    transitions :=
      if type = .transitions ∨ type = .all then mapDelete c.transitions issueKey
      else c.transitions,
    worklogs :=
      if type = .worklogs ∨ type = .all then mapDelete c.worklogs issueKey
      else c.worklogs,
    checklist :=
      if type = .checklist ∨ type = .all then mapDelete c.checklist issueKey
      else c.checklist }

/-- `addComment`: awaits the remote `add_comment` call, and only when it
succeeds invalidates the comments slot of the targeted issue; a failure
propagates before any invalidation. -/
def addComment {E R : Type} (issueKey : String) (remote : Except E R)
    (c : DetailCache) : Except E R × DetailCache :=
  match remote with
  | .ok r => (.ok r, invalidateCache issueKey .comments c)
  | .error e => (.error e, c)

/-- `executeTransition`: invalidates the transitions slot of the targeted
issue after the remote call succeeds. -/
def executeTransition {E R : Type} (issueKey : String) (remote : Except E R)
    (c : DetailCache) : Except E R × DetailCache :=
  match remote with
  | .ok r => (.ok r, invalidateCache issueKey .transitions c)
  | .error e => (.error e, c)

/-- `addChecklistItem`: invalidates the checklist slot after success. -/
def addChecklistItem {E R : Type} (issueKey : String) (remote : Except E R)
    (c : DetailCache) : Except E R × DetailCache :=
  match remote with
  | .ok r => (.ok r, invalidateCache issueKey .checklist c)
  | .error e => (.error e, c)

/-- `editChecklistItem`: invalidates the checklist slot after success. -/
def editChecklistItem {E R : Type} (issueKey : String) (remote : Except E R)
    (c : DetailCache) : Except E R × DetailCache :=
  match remote with
  | .ok r => (.ok r, invalidateCache issueKey .checklist c)
  | .error e => (.error e, c)

/-- `deleteChecklistItem`: invalidates the checklist slot after success. -/
def deleteChecklistItem {E R : Type} (issueKey : String) (remote : Except E R)
    (c : DetailCache) : Except E R × DetailCache :=
  match remote with
  | .ok r => (.ok r, invalidateCache issueKey .checklist c)
  | .error e => (.error e, c)

/-- `deleteChecklist`: invalidates the checklist slot after success. -/
def deleteChecklist {E R : Type} (issueKey : String) (remote : Except E R)
    (c : DetailCache) : Except E R × DetailCache :=
  match remote with
  | .ok r => (.ok r, invalidateCache issueKey .checklist c)
  | .error e => (.error e, c)

/-- One map lost exactly the entry of one key. -/
def ClearedAt {T : Type} (before after : CMap T) (key : String) : Prop :=
  after key = none ∧ ∀ q, q ≠ key → after q = before q

/- ### Scalar catalog caches (statuses, resolutions, directories) -/

/-- Module-level state of one scalar catalog cache: the cached collection
(`cachedStatuses`, `cachedQueuesDirectory`, ...), the pending in-flight
promise (`statusesPromise`, ...), a promise-id counter, and the count of
remote invokes issued.  No timestamp exists anywhere in this state: the
source keeps none for these caches. -/
structure ScalarCacheState (T : Type) where
  cached : Option T
  pending : Option Nat
  nextId : Nat
  invokes : Nat
deriving DecidableEq

/-- What a scalar-cache getter hands back: the cached value synchronously,
or a (possibly shared) pending promise. -/
inductive ScalarFetchResult (T : Type) where
  | value (d : T)
  | promise (p : Nat)
deriving DecidableEq

/-- `getStatuses`: a cached catalog is returned as-is; otherwise an
already-pending promise is shared, or one `get_statuses` invoke starts a
new promise.  No clock is consulted — the cached value never expires. -/
def getStatuses {T : Type} (s : ScalarCacheState T) :
    ScalarFetchResult T × ScalarCacheState T :=
  match s.cached with
  | some d => (.value d, s)
  | none =>
      match s.pending with
      | some p => (.promise p, s)
      | none =>
          (.promise s.nextId,
            { cached := s.cached, pending := some s.nextId,
              nextId := s.nextId + 1, invokes := s.invokes + 1 })

/-- Settlement of the statuses promise: `.then` stores the data in
`cachedStatuses` on success, and `.finally` clears `statusesPromise`
unconditionally. -/
def settleStatuses {T : Type} (outcome : Except String T)
    (s : ScalarCacheState T) : ScalarCacheState T :=
  match outcome with
  | .ok d => { s with cached := some d, pending := none }
  | .error _ => { s with pending := none }

/-- `fetchQueuesDirectory(force)`: without force, a cached directory or a
pending promise is reused; otherwise (or with force) one `get_queues`
invoke starts a new promise.  As with the statuses cache, no clock is
consulted. -/
def fetchQueuesDirectory {T : Type} (force : Bool) (s : ScalarCacheState T) :
    ScalarFetchResult T × ScalarCacheState T :=
  if force then
    (.promise s.nextId,
      { cached := s.cached, pending := some s.nextId,
        nextId := s.nextId + 1, invokes := s.invokes + 1 })
  else
    match s.cached with
    | some d => (.value d, s)
    | none =>
        match s.pending with
        | some p => (.promise p, s)
        | none =>
            (.promise s.nextId,
              { cached := s.cached, pending := some s.nextId,
                nextId := s.nextId + 1, invokes := s.invokes + 1 })

/-- Settlement of the queues-directory promise: `.then` stores the data on
success, and `.finally` clears the pending slot only if it still holds
this same promise. -/
def settleQueuesDirectory {T : Type} (p : Nat) (outcome : Except String T)
    (s : ScalarCacheState T) : ScalarCacheState T :=
  let s₁ : ScalarCacheState T := match outcome with
    | .ok d => { s with cached := some d }
    | .error _ => s
  if s₁.pending = some p then { s₁ with pending := none } else s₁

/-! ### Theorems -/

/-- `serializeFields` is the entrywise serialization map. -/
theorem serializeFields_eq_map (fields : List (String × JsonValue)) :
    serializeFields fields = fields.map serializeField := by
  induction fields with
  | nil => rfl
  | cons e rest ih => cases e; simp [serializeFields, serializeField, ih]

/-- Concrete serialization check: entries are rendered sorted by key with
quoted keys and JSON values. -/
theorem stableSerialize_concrete_object :
    stableSerialize (.obj [("b", .num 2), ("a", .num 1)]) =
      "\x7b\"a\":1,\"b\":2\x7d" := by
  simp [stableSerialize, serializeFields, sortSerializedFields,
    List.insertionSort, List.orderedInsert, fieldKeyLE, jsonStringifyString,
    jsonEscapeChar, String.intercalate]
  decide

theorem orderedInsert_map_serializeField (a : String × JsonValue)
    (l : List (String × JsonValue)) :
    List.orderedInsert fieldKeyLE (serializeField a) (l.map serializeField) =
      (List.orderedInsert rawKeyLE a l).map serializeField := by
  induction l with
  | nil => rfl
  | cons b rest ih =>
      by_cases h : rawKeyLE a b
      · have h2 : fieldKeyLE (serializeField a) (serializeField b) := h
        simp only [List.map_cons, List.orderedInsert, if_pos h, if_pos h2]
      · have h2 : ¬ fieldKeyLE (serializeField a) (serializeField b) := h
        simp only [List.map_cons, List.orderedInsert, if_neg h, if_neg h2, ih]

theorem insertionSort_map_serializeField (l : List (String × JsonValue)) :
    List.insertionSort fieldKeyLE (l.map serializeField) =
      (List.insertionSort rawKeyLE l).map serializeField := by
  induction l with
  | nil => rfl
  | cons a rest ih =>
      simp only [List.map_cons, List.insertionSort]
      rw [ih, orderedInsert_map_serializeField]

/-- The filter-sort pipeline on serialized fields equals the source's
filter-sort on raw entries followed by entrywise serialization: sorting
compares only keys and filtering inspects only the `undefined` marker, so
the two orders of operation coincide. -/
theorem sortSerializedFields_map (fields : List (String × JsonValue)) :
    sortSerializedFields (serializeFields fields) =
      ((fields.filter (fun e => !e.2.isUndef)).insertionSort rawKeyLE).map
        (fun e => (e.1, stableSerialize e.2)) := by
  unfold sortSerializedFields
  rw [serializeFields_eq_map, List.filter_map]
  have hp : ((fun (e : SerializedField) => !e.2.1) ∘ serializeField) =
      (fun e => !e.2.isUndef) := by
    funext e
    rfl
  rw [hp, insertionSort_map_serializeField, List.map_map]
  rfl

theorem sorted_rawKeyLT_of_sorted_le {l : List (String × JsonValue)}
    (hs : l.Sorted rawKeyLE) (hn : (l.map Prod.fst).Nodup) :
    l.Sorted rawKeyLT := by
  have hne : l.Pairwise (fun p q : String × JsonValue => p.1 ≠ q.1) :=
    List.pairwise_map.mp hn
  exact (hs.and hne).imp (fun h => lt_of_le_of_ne h.1 h.2)

/-- Two permuted entry lists with the same distinct keys sort identically. -/
theorem insertionSort_eq_of_perm {l₁ l₂ : List (String × JsonValue)}
    (hp : List.Perm l₁ l₂) (hn : (l₁.map Prod.fst).Nodup) :
    List.insertionSort rawKeyLE l₁ = List.insertionSort rawKeyLE l₂ := by
  have hn₂ : (l₂.map Prod.fst).Nodup := ((hp.map Prod.fst).nodup_iff).mp hn
  have hs₁ : (List.insertionSort rawKeyLE l₁).Sorted rawKeyLE :=
    List.sorted_insertionSort rawKeyLE l₁
  have hs₂ : (List.insertionSort rawKeyLE l₂).Sorted rawKeyLE :=
    List.sorted_insertionSort rawKeyLE l₂
  have hperm : List.Perm (List.insertionSort rawKeyLE l₁)
      (List.insertionSort rawKeyLE l₂) :=
    ((List.perm_insertionSort rawKeyLE l₁).trans hp).trans
      (List.perm_insertionSort rawKeyLE l₂).symm
  have hn₁s : ((List.insertionSort rawKeyLE l₁).map Prod.fst).Nodup :=
    (((List.perm_insertionSort rawKeyLE l₁).map Prod.fst).nodup_iff).mpr hn
  have hn₂s : ((List.insertionSort rawKeyLE l₂).map Prod.fst).Nodup :=
    (((List.perm_insertionSort rawKeyLE l₂).map Prod.fst).nodup_iff).mpr hn₂
  exact List.eq_of_perm_of_sorted hperm
    (sorted_rawKeyLT_of_sorted_le hs₁ hn₁s)
    (sorted_rawKeyLT_of_sorted_le hs₂ hn₂s)

/-- `stableSerialize` on objects is independent of entry insertion order
when keys are distinct. -/
theorem stableSerialize_obj_perm {f₁ f₂ : List (String × JsonValue)}
    (hp : List.Perm f₁ f₂) (hn : (f₁.map Prod.fst).Nodup) :
    stableSerialize (.obj f₁) = stableSerialize (.obj f₂) := by
  simp only [stableSerialize, sortSerializedFields_map]
  have hpf : List.Perm (f₁.filter (fun e => !e.2.isUndef))
      (f₂.filter (fun e => !e.2.isUndef)) := hp.filter _
  have hnf : ((f₁.filter (fun e => !e.2.isUndef)).map Prod.fst).Nodup :=
    ((f₁.filter_sublist).map Prod.fst).nodup hn
  rw [insertionSort_eq_of_perm hpf hnf]

theorem normalizeFilterPayload_some (fs : List (String × JsonValue)) :
    normalizeFilterPayload (some fs) =
      if (fs.filter keptEntry).isEmpty then none else some (fs.filter keptEntry) := by
  rfl

/-- C4: two search options that are semantically identical after
normalization produce equal canonical fetch keys: permuting filter entries
with distinct keys, dropping entries whose value normalizes away
(`null`/`undefined`), and collapsing an empty query with an
empty-after-normalization filter to the default key. -/
theorem C4_canonical_key_equivalence :
    (∀ (q scroll : Option String) (f₁ f₂ : List (String × JsonValue)),
        List.Perm f₁ f₂ → (f₁.map Prod.fst).Nodup →
        getIssueFetchKey (normalizeIssueOptions (some ⟨q, some f₁⟩)) scroll =
          getIssueFetchKey (normalizeIssueOptions (some ⟨q, some f₂⟩)) scroll) ∧
    (∀ (q scroll : Option String) (f₁ f₂ : List (String × JsonValue)),
        f₁.filter keptEntry = f₂.filter keptEntry →
        getIssueFetchKey (normalizeIssueOptions (some ⟨q, some f₁⟩)) scroll =
          getIssueFetchKey (normalizeIssueOptions (some ⟨q, some f₂⟩)) scroll) ∧
    (∀ (q : Option String) (f : Option (List (String × JsonValue))),
        (q.map jsTrim).getD "" = "" → normalizeFilterPayload f = none →
        normalizeIssueOptions (some ⟨q, f⟩) = none ∧
        getIssueFetchKey (normalizeIssueOptions (some ⟨q, f⟩)) none =
          "__default__::__nofilter__::__scroll_root__") := by
  refine ⟨?_, ?_, ?_⟩
  · intro q scroll f₁ f₂ hp hn
    have hg : List.Perm (f₁.filter keptEntry) (f₂.filter keptEntry) :=
      hp.filter keptEntry
    by_cases he : f₁.filter keptEntry = []
    · have he₂ : f₂.filter keptEntry = [] := by
        rw [he] at hg
        exact hg.symm.eq_nil
      simp [normalizeIssueOptions, normalizeFilterPayload_some, he, he₂]
    · have he₂ : ¬ f₂.filter keptEntry = [] := by
        intro h
        rw [h] at hg
        exact he hg.eq_nil
      have hnod : ((f₁.filter keptEntry).map Prod.fst).Nodup :=
        ((f₁.filter_sublist).map Prod.fst).nodup hn
      have hs := stableSerialize_obj_perm hg hnod
      have hb₁ : (f₁.filter keptEntry).isEmpty = false := by
        simp [List.isEmpty_iff, he]
      have hb₂ : (f₂.filter keptEntry).isEmpty = false := by
        simp [List.isEmpty_iff, he₂]
      simp [normalizeIssueOptions, normalizeFilterPayload_some, hb₁, hb₂,
        getIssueFetchKey, hs]
  · intro q scroll f₁ f₂ h
    simp only [normalizeIssueOptions, normalizeFilterPayload_some, h]
  · intro q f hq hf
    have hkept : (match q.map jsTrim with
        | some s => if s.isEmpty then none else some s
        | none => (none : Option String)) = none := by
      match q with
      | none => rfl
      | some s =>
          have : jsTrim s = "" := by simpa using hq
          simp [this]
          rfl
    constructor
    · simp only [normalizeIssueOptions, hf]
      simp [hkept]
    · simp only [normalizeIssueOptions, hf]
      simp only [hkept]
      rfl

/-- Witness for C4 at the spec's concrete inputs: the filters
`\x7ba:1,b:2\x7d` and `\x7bb:2,a:1\x7d` yield identical canonical keys. -/
theorem C4_canonical_key_equivalence_witness :
    getIssueFetchKey
        (normalizeIssueOptions (some ⟨none, some [("a", .num 1), ("b", .num 2)]⟩))
        none =
      getIssueFetchKey
        (normalizeIssueOptions (some ⟨none, some [("b", .num 2), ("a", .num 1)]⟩))
        none :=
  C4_canonical_key_equivalence.1 none none
    [("a", JsonValue.num 1), ("b", JsonValue.num 2)]
    [("b", JsonValue.num 2), ("a", JsonValue.num 1)]
    (List.Perm.swap ("b", JsonValue.num 2) ("a", JsonValue.num 1) [])
    (by simp)

theorem keyIdx_eq_none {l : List Issue} {k : String}
    (h : k ∉ l.map Issue.key) : keyIdx l k = none := by
  induction l with
  | nil => rfl
  | cons a rest ih =>
      have h₁ : ¬ a.key = k := fun hk => h (by simp [hk])
      have h₂ : k ∉ rest.map Issue.key := fun hk => h (by simp [hk])
      simp [keyIdx, h₁, ih h₂]

theorem keyIdx_some {l : List Issue} {k : String} {i : Nat}
    (h : keyIdx l k = some i) :
    ∃ hi : i < l.length, (l.get ⟨i, hi⟩).key = k := by
  induction l generalizing i with
  | nil => simp [keyIdx] at h
  | cons a rest ih =>
      by_cases ha : a.key = k
      · simp [keyIdx, ha] at h
        subst h
        exact ⟨Nat.succ_pos _, ha⟩
      · simp [keyIdx, ha] at h
        obtain ⟨j, hj, rfl⟩ := h
        obtain ⟨hjl, hjk⟩ := ih hj
        exact ⟨Nat.succ_lt_succ hjl, hjk⟩

theorem keyIdx_of_get {l : List Issue} (hn : (l.map Issue.key).Nodup)
    {k : String} {i : Nat} (hi : i < l.length) (hk : (l.get ⟨i, hi⟩).key = k) :
    keyIdx l k = some i := by
  induction l generalizing i with
  | nil => exact absurd hi (by simp)
  | cons a rest ih =>
      have ha : a.key ∉ rest.map Issue.key := (List.nodup_cons.mp hn).1
      have hn' : (rest.map Issue.key).Nodup := (List.nodup_cons.mp hn).2
      match i with
      | 0 =>
          simp only [List.get] at hk
          simp [keyIdx, hk]
      | j + 1 =>
          have hjl : j < rest.length := Nat.lt_of_succ_lt_succ hi
          have hkrest : (rest.get ⟨j, hjl⟩).key = k := hk
          have hmem : k ∈ rest.map Issue.key := by
            rw [← hkrest]
            exact List.mem_map_of_mem Issue.key (rest.get_mem _ _)
          have hne : ¬ a.key = k := fun h => ha (h ▸ hmem)
          simp [keyIdx, hne, ih hn' hjl hkrest]

theorem keyIdx_some_iff {l : List Issue} (hn : (l.map Issue.key).Nodup)
    {k : String} {i : Nat} :
    keyIdx l k = some i ↔ ∃ hi : i < l.length, (l.get ⟨i, hi⟩).key = k :=
  ⟨keyIdx_some, fun ⟨hi, hk⟩ => keyIdx_of_get hn hi hk⟩

theorem buildIndexMapFrom_eq {l : List Issue} (hn : (l.map Issue.key).Nodup)
    (n : Nat) (m : String → Option Nat) (k : String) :
    buildIndexMapFrom l n m k =
      match keyIdx l k with
      | some j => some (n + j)
      | none => m k := by
  induction l generalizing n m with
  | nil => rfl
  | cons a rest ih =>
      have ha : a.key ∉ rest.map Issue.key := (List.nodup_cons.mp hn).1
      have hn' : (rest.map Issue.key).Nodup := (List.nodup_cons.mp hn).2
      by_cases h : a.key = k
      · have hrest : keyIdx rest k = none := keyIdx_eq_none (h ▸ ha)
        simp [buildIndexMapFrom, keyIdx, h, ih hn', hrest, mapSet]
      · have hks : ¬ k = a.key := fun hk => h hk.symm
        rw [buildIndexMapFrom, ih hn']
        simp only [keyIdx, if_neg h]
        cases hkr : keyIdx rest k with
        | none => simp [mapSet, hks]
        | some j => simp [Nat.add_assoc, Nat.add_comm 1 j]

/-- The index map is exactly the first-position-by-key table of the list. -/
theorem buildIndexMap_eq {l : List Issue} (hn : (l.map Issue.key).Nodup)
    (k : String) : buildIndexMap l k = keyIdx l k := by
  rw [buildIndexMap, buildIndexMapFrom_eq hn]
  cases keyIdx l k with
  | none => rfl
  | some j => simp

theorem set_self_of_getElem {α : Type} {l : List α} {i : Nat} {a : α}
    (hi : i < l.length) (h : l[i] = a) : l.set i a = l := by
  apply List.ext_getElem (by simp)
  intro n h₁ h₂
  rw [List.getElem_set]
  split
  · next heq => subst heq; exact h.symm
  · rfl

theorem keyIdx_congr {l₁ l₂ : List Issue}
    (h : l₁.map Issue.key = l₂.map Issue.key) (k : String) :
    keyIdx l₁ k = keyIdx l₂ k := by
  induction l₁ generalizing l₂ with
  | nil =>
      cases l₂ with
      | nil => rfl
      | cons b t => simp at h
  | cons a t₁ ih =>
      cases l₂ with
      | nil => simp at h
      | cons b t₂ =>
          simp only [List.map_cons, List.cons.injEq] at h
          simp [keyIdx, h.1, ih h.2]

theorem keyIdx_append_single (next : List Issue) (issue : Issue) (k : String) :
    keyIdx (next ++ [issue]) k =
      match keyIdx next k with
      | some j => some j
      | none => if issue.key = k then some next.length else none := by
  induction next with
  | nil => by_cases h : issue.key = k <;> simp [keyIdx, h]
  | cons a rest ih =>
      by_cases h : a.key = k
      · simp [keyIdx, h]
      · have hL : keyIdx ((a :: rest) ++ [issue]) k =
            (keyIdx (rest ++ [issue]) k).map (· + 1) := by
          simp [keyIdx, h]
        have hR : keyIdx (a :: rest) k = (keyIdx rest k).map (· + 1) := by
          simp [keyIdx, h]
        rw [hL, ih, hR]
        cases keyIdx rest k with
        | some j => rfl
        | none =>
            by_cases hik : issue.key = k <;> simp [hik, List.length_cons]

theorem keyIdx_eq_none_iff {l : List Issue} {k : String} :
    keyIdx l k = none ↔ k ∉ l.map Issue.key := by
  induction l with
  | nil => simp [keyIdx]
  | cons a rest ih =>
      by_cases h : a.key = k
      · simp [keyIdx, h]
      · have h' : ¬ k = a.key := fun hk => h hk.symm
        simp [keyIdx, h, h', ih]

theorem IndexMapOf_buildIndexMap {current : List Issue}
    (hn : (current.map Issue.key).Nodup) :
    IndexMapOf current (buildIndexMap current) :=
  ⟨hn, buildIndexMap_eq hn⟩

theorem IndexMapOf_set {next : List Issue} {idx : String → Option Nat}
    {issue : Issue} {i : Nat} (h : IndexMapOf next idx)
    (hidx : idx issue.key = some i) :
    (next.set i issue).map Issue.key = next.map Issue.key ∧
      IndexMapOf (next.set i issue) idx ∧
      ∃ hi : i < next.length, (next.get ⟨i, hi⟩).key = issue.key := by
  have hk : keyIdx next issue.key = some i := (h.2 issue.key).symm.trans hidx
  obtain ⟨hi, hkey⟩ := keyIdx_some hk
  have hmap : (next.set i issue).map Issue.key = next.map Issue.key := by
    rw [List.map_set]
    apply set_self_of_getElem (by simpa using hi)
    rw [List.getElem_map]
    simpa [List.get_eq_getElem] using hkey
  refine ⟨hmap, ⟨?_, ?_⟩, hi, hkey⟩
  · rw [hmap]; exact h.1
  · intro k
    rw [h.2 k, keyIdx_congr hmap k]

theorem IndexMapOf_append {next : List Issue} {idx : String → Option Nat}
    {issue : Issue} (h : IndexMapOf next idx)
    (hidx : idx issue.key = none) :
    IndexMapOf (next ++ [issue]) (mapSet idx issue.key next.length) ∧
      issue.key ∉ next.map Issue.key := by
  have hk : keyIdx next issue.key = none := (h.2 issue.key).symm.trans hidx
  have hmem : issue.key ∉ next.map Issue.key := keyIdx_eq_none_iff.mp hk
  refine ⟨⟨?_, ?_⟩, hmem⟩
  · rw [List.map_append]
    exact List.nodup_append.mpr ⟨h.1, by simp, by
      intro a ha
      simp only [List.map_cons, List.map_nil, List.mem_singleton]
      intro hae
      exact hmem (hae ▸ ha)⟩
  · intro k
    rw [keyIdx_append_single]
    by_cases hke : k = issue.key
    · subst hke
      rw [hk]
      simp [mapSet]
    · have : mapSet idx issue.key next.length k = idx k := by
        simp [mapSet, hke]
      rw [this, h.2 k]
      cases hkr : keyIdx next k with
      | some j => rfl
      | none => rw [if_neg (fun hik => hke hik.symm)]

/-- The merged list's keys stay pairwise distinct for any incoming page. -/
theorem mergeLoop_nodup (incoming : List Issue) :
    ∀ (next : List Issue) (idx : String → Option Nat), IndexMapOf next idx →
      ((mergeLoop incoming next idx).map Issue.key).Nodup := by
  induction incoming with
  | nil => intro next idx h; exact h.1
  | cons issue rest ih =>
      intro next idx h
      cases hidx : idx issue.key with
      | some i =>
          rw [mergeLoop, hidx]
          exact ih _ _ (IndexMapOf_set h hidx).2.1
      | none =>
          rw [mergeLoop, hidx]
          exact ih _ _ (IndexMapOf_append h hidx).1

theorem overrideBy_cons_eq {issue c : Issue} (rest : List Issue)
    (h : issue.key = c.key) : overrideBy (issue :: rest) c = issue := by
  simp [overrideBy, List.find?_cons, h]

theorem overrideBy_cons_ne {issue c : Issue} (rest : List Issue)
    (h : ¬ issue.key = c.key) : overrideBy (issue :: rest) c = overrideBy rest c := by
  simp only [overrideBy, List.find?_cons]
  rw [show (issue.key == c.key) = false from beq_eq_false_iff_ne.mpr h]

theorem overrideBy_not_mem {incoming : List Issue} {c : Issue}
    (h : c.key ∉ incoming.map Issue.key) : overrideBy incoming c = c := by
  have : incoming.find? (fun i => i.key == c.key) = none :=
    List.find?_eq_none.mpr (fun x hx hbeq =>
      h (beq_iff_eq.mp hbeq ▸ List.mem_map_of_mem Issue.key hx))
  simp [overrideBy, this]

theorem map_overrideBy_not_mem {next rest : List Issue} {issue : Issue}
    (h : issue.key ∉ next.map Issue.key) :
    next.map (overrideBy (issue :: rest)) = next.map (overrideBy rest) :=
  List.map_congr_left (fun _ hc =>
    overrideBy_cons_ne rest (fun he => h (he ▸ List.mem_map_of_mem Issue.key hc)))

theorem map_overrideBy_set {next rest : List Issue} {issue : Issue} {i : Nat}
    (hn : (next.map Issue.key).Nodup) (hi : i < next.length)
    (hkey : (next.get ⟨i, hi⟩).key = issue.key)
    (hkn : issue.key ∉ rest.map Issue.key) :
    (next.set i issue).map (overrideBy rest) =
      next.map (overrideBy (issue :: rest)) := by
  apply List.ext_getElem (by simp)
  intro n h₁ h₂
  have hnl : n < next.length := by simpa using h₂
  rw [List.getElem_map, List.getElem_map, List.getElem_set]
  by_cases hin : i = n
  · rw [if_pos hin]
    subst hin
    rw [overrideBy_not_mem hkn,
      overrideBy_cons_eq rest (by simpa [List.get_eq_getElem] using hkey.symm)]
  · rw [if_neg hin]
    have hi2 : i < (next.map Issue.key).length := by simpa using hi
    have hn2 : n < (next.map Issue.key).length := by simpa using hnl
    have hne : ¬ issue.key = (next.get ⟨n, hnl⟩).key := by
      intro he
      apply hin
      have hme : (next.map Issue.key).get ⟨i, hi2⟩ =
          (next.map Issue.key).get ⟨n, hn2⟩ := by
        simp only [List.get_eq_getElem, List.getElem_map]
        simp only [List.get_eq_getElem] at hkey he
        rw [hkey, ← he]
      simp only [List.get_eq_getElem] at hme
      exact (hn.getElem_inj_iff).mp hme
    rw [overrideBy_cons_ne rest (by simpa [List.get_eq_getElem] using hne)]

/-- Closed form of the merge loop for an incoming page with distinct keys:
current entries are overridden in place by same-key incoming issues, and
the remaining incoming issues are appended in page order. -/
theorem mergeLoop_closed (incoming : List Issue) :
    ∀ (next : List Issue) (idx : String → Option Nat), IndexMapOf next idx →
      (incoming.map Issue.key).Nodup →
      mergeLoop incoming next idx =
        next.map (overrideBy incoming) ++
          incoming.filter (fun x => decide (x.key ∉ next.map Issue.key)) := by
  induction incoming with
  | nil =>
      intro next idx _ _
      have hov : ∀ c ∈ next, overrideBy [] c = (fun a => a) c := fun _ _ => rfl
      have : next.map (overrideBy []) = next := by
        rw [List.map_congr_left hov, List.map_id']
      simp [mergeLoop, this]
  | cons issue rest ih =>
      intro next idx h hni
      have hkn : issue.key ∉ rest.map Issue.key := (List.nodup_cons.mp hni).1
      have hnr : (rest.map Issue.key).Nodup := (List.nodup_cons.mp hni).2
      cases hidx : idx issue.key with
      | some i =>
          obtain ⟨hmap, hinv, hi, hkey⟩ := IndexMapOf_set h hidx
          rw [mergeLoop, hidx]
          show mergeLoop rest (next.set i issue) idx = _
          rw [ih _ _ hinv hnr, hmap,
            map_overrideBy_set h.1 hi hkey hkn]
          have hmm : issue.key ∈ next.map Issue.key := by
            rw [← hkey]
            exact List.mem_map_of_mem Issue.key (next.get_mem _ _)
          rw [List.filter_cons, if_neg (by simp [hmm])]
      | none =>
          obtain ⟨hinv, hmem⟩ := IndexMapOf_append h hidx
          rw [mergeLoop, hidx]
          show mergeLoop rest (next ++ [issue]) (mapSet idx issue.key next.length) = _
          rw [ih _ _ hinv hnr, List.map_append]
          have h₂ : rest.filter
                (fun x => decide (x.key ∉ (next ++ [issue]).map Issue.key)) =
              rest.filter (fun x => decide (x.key ∉ next.map Issue.key)) := by
            apply List.filter_congr
            intro x hx
            have hne : x.key ≠ issue.key := fun he =>
              hkn (he ▸ List.mem_map_of_mem Issue.key hx)
            simp [List.mem_append, hne]
          rw [h₂, map_overrideBy_not_mem hmem]
          have h₃ : (issue :: rest).filter
                (fun x => decide (x.key ∉ next.map Issue.key)) =
              issue :: rest.filter
                (fun x => decide (x.key ∉ next.map Issue.key)) := by
            rw [List.filter_cons, if_pos (by simp [hmem])]
          rw [h₃]
          simp only [List.map_cons, List.map_nil, overrideBy_not_mem hkn,
            List.append_assoc, List.singleton_append]

theorem overrideBy_key (incoming : List Issue) (c : Issue) :
    (overrideBy incoming c).key = c.key := by
  unfold overrideBy
  cases hf : incoming.find? (fun i => i.key == c.key) with
  | none => rfl
  | some i =>
      show i.key = c.key
      have hp := @List.find?_some Issue (fun j => j.key == c.key) i incoming hf
      exact beq_iff_eq.mp hp

theorem map_key_map_overrideBy (incoming current : List Issue) :
    ((current.map (overrideBy incoming)).map Issue.key) =
      current.map Issue.key := by
  rw [List.map_map]
  exact List.map_congr_left (fun c _ => overrideBy_key incoming c)

/-- C3: for a current list and an incoming page both with pairwise-distinct
keys, the merge overrides in place (preserving position) every current
entry whose key occurs in the page, appends all other incoming issues in
page order, keeps the keys pairwise distinct, and — when the page's keys
all already occur in the current list — preserves the key sequence and the
length, changing only matched entries' content. -/
theorem C3_merge_in_place_semantics (current incoming : List Issue)
    (hcur : (current.map Issue.key).Nodup)
    (hinc : (incoming.map Issue.key).Nodup) :
    mergeIssueLists current incoming =
        current.map (overrideBy incoming) ++
          incoming.filter (fun x => decide (x.key ∉ current.map Issue.key)) ∧
      ((mergeIssueLists current incoming).map Issue.key).Nodup ∧
      ((∀ x ∈ incoming, x.key ∈ current.map Issue.key) →
        (mergeIssueLists current incoming).map Issue.key =
            current.map Issue.key ∧
          (mergeIssueLists current incoming).length = current.length) := by
  have hclosed : mergeIssueLists current incoming =
      current.map (overrideBy incoming) ++
        incoming.filter (fun x => decide (x.key ∉ current.map Issue.key)) := by
    by_cases hz : incoming.length = 0
    · have hnil : incoming = [] := List.length_eq_zero.mp hz
      subst hnil
      have hov : ∀ c ∈ current, overrideBy [] c = (fun a => a) c := fun _ _ => rfl
      have hm : mergeIssueLists current [] = current := rfl
      rw [hm, List.map_congr_left hov, List.map_id']
      simp
    · rw [mergeIssueLists, if_neg hz]
      exact mergeLoop_closed incoming current _ (IndexMapOf_buildIndexMap hcur) hinc
  have hnodup : ((mergeIssueLists current incoming).map Issue.key).Nodup := by
    by_cases hz : incoming.length = 0
    · rw [mergeIssueLists, if_pos hz]; exact hcur
    · rw [mergeIssueLists, if_neg hz]
      exact mergeLoop_nodup incoming current _ (IndexMapOf_buildIndexMap hcur)
  refine ⟨hclosed, hnodup, fun hsub => ?_⟩
  have hfil : incoming.filter
      (fun x => decide (x.key ∉ current.map Issue.key)) = [] :=
    List.filter_eq_nil_iff.mpr (fun x hx => by simp [hsub x hx])
  rw [hclosed, hfil, List.append_nil]
  exact ⟨map_key_map_overrideBy incoming current, by simp⟩

/-- Witness for C3: merging a one-issue page that updates the first of two
current issues replaces it in place and appends nothing. -/
theorem C3_merge_in_place_semantics_witness :
    mergeIssueLists
        [⟨"YT-1", "Initial", "", ⟨"open", "Open"⟩, ⟨"normal", "Normal"⟩, none⟩,
         ⟨"YT-2", "Second", "", ⟨"open", "Open"⟩, ⟨"normal", "Normal"⟩, none⟩]
        [⟨"YT-1", "Updated", "", ⟨"open", "Open"⟩, ⟨"normal", "Normal"⟩, none⟩] =
        [⟨"YT-1", "Initial", "", ⟨"open", "Open"⟩, ⟨"normal", "Normal"⟩, none⟩,
            ⟨"YT-2", "Second", "", ⟨"open", "Open"⟩, ⟨"normal", "Normal"⟩,
              none⟩].map
            (overrideBy
              [⟨"YT-1", "Updated", "", ⟨"open", "Open"⟩, ⟨"normal", "Normal"⟩,
                none⟩]) ++
          [⟨"YT-1", "Updated", "", ⟨"open", "Open"⟩, ⟨"normal", "Normal"⟩,
              none⟩].filter
            (fun x =>
              decide (x.key ∉
                [⟨"YT-1", "Initial", "", ⟨"open", "Open"⟩, ⟨"normal", "Normal"⟩,
                    none⟩,
                  ⟨"YT-2", "Second", "", ⟨"open", "Open"⟩, ⟨"normal", "Normal"⟩,
                    none⟩].map Issue.key)) :=
  (C3_merge_in_place_semantics _ _ (by decide) (by decide)).1

theorem find?_set_ne {next : List Issue} {issue : Issue} {k : String} :
    ∀ {i : Nat} (hi : i < next.length),
      (next.get ⟨i, hi⟩).key = issue.key → ¬ issue.key = k →
      (next.set i issue).find? (fun x => x.key == k) =
        next.find? (fun x => x.key == k) := by
  induction next with
  | nil => intro i hi; exact absurd hi (by simp)
  | cons a rest ih =>
      intro i hi hkey hk
      match i with
      | 0 =>
          have ha : a.key = issue.key := hkey
          have h₁ : (issue.key == k) = false :=
            beq_eq_false_iff_ne.mpr hk
          have h₂ : (a.key == k) = false :=
            beq_eq_false_iff_ne.mpr (fun he => hk (ha ▸ he))
          simp [List.find?_cons, h₁, h₂]
      | j + 1 =>
          have hj : j < rest.length := Nat.lt_of_succ_lt_succ hi
          have hkey' : (rest.get ⟨j, hj⟩).key = issue.key := hkey
          show List.find? _ (a :: rest.set j issue) = _
          rw [List.find?_cons, List.find?_cons]
          cases a.key == k with
          | true => rfl
          | false => exact ih hj hkey' hk

theorem find?_set_self {next : List Issue} {issue : Issue} :
    ∀ {i : Nat} (hi : i < next.length), (next.map Issue.key).Nodup →
      (next.get ⟨i, hi⟩).key = issue.key →
      (next.set i issue).find? (fun x => x.key == issue.key) = some issue := by
  induction next with
  | nil => intro i hi; exact absurd hi (by simp)
  | cons a rest ih =>
      intro i hi hn hkey
      match i with
      | 0 =>
          show List.find? _ (issue :: rest) = _
          simp [List.find?_cons]
      | j + 1 =>
          have hj : j < rest.length := Nat.lt_of_succ_lt_succ hi
          have hkey' : (rest.get ⟨j, hj⟩).key = issue.key := hkey
          have hmem : issue.key ∈ rest.map Issue.key := by
            rw [← hkey']
            exact List.mem_map_of_mem Issue.key (rest.get_mem _ _)
          have ha : ¬ a.key = issue.key := fun he =>
            (List.nodup_cons.mp hn).1 (he ▸ hmem)
          show List.find? _ (a :: rest.set j issue) = _
          rw [List.find?_cons]
          rw [show (a.key == issue.key) = false from beq_eq_false_iff_ne.mpr ha]
          exact ih hj (List.nodup_cons.mp hn).2 hkey'

theorem find?_append_single_ne {next : List Issue} {issue : Issue} {k : String}
    (hk : ¬ issue.key = k) :
    (next ++ [issue]).find? (fun x => x.key == k) =
      next.find? (fun x => x.key == k) := by
  rw [List.find?_append]
  have : List.find? (fun x => x.key == k) [issue] = none := by
    simp [List.find?_cons, beq_eq_false_iff_ne.mpr hk]
  rw [this, Option.or_none]

theorem find?_append_single_self {next : List Issue} {issue : Issue}
    (hmem : issue.key ∉ next.map Issue.key) :
    (next ++ [issue]).find? (fun x => x.key == issue.key) = some issue := by
  rw [List.find?_append]
  have hnone : next.find? (fun x => x.key == issue.key) = none :=
    List.find?_eq_none.mpr (fun x hx hbeq =>
      hmem (beq_iff_eq.mp hbeq ▸ List.mem_map_of_mem Issue.key hx))
  rw [hnone]
  simp [List.find?_cons]

/-- Keys never touched by the incoming page look up the same entry after
the merge loop. -/
theorem mergeLoop_find?_not_mem (incoming : List Issue) :
    ∀ (next : List Issue) (idx : String → Option Nat), IndexMapOf next idx →
      ∀ k, k ∉ incoming.map Issue.key →
      (mergeLoop incoming next idx).find? (fun x => x.key == k) =
        next.find? (fun x => x.key == k) := by
  induction incoming with
  | nil => intro next idx _ k _; rfl
  | cons issue rest ih =>
      intro next idx h k hk
      have hk₁ : ¬ issue.key = k := fun he => hk (by simp [he])
      have hk₂ : k ∉ rest.map Issue.key := fun he => hk (by simp [he])
      cases hidx : idx issue.key with
      | some i =>
          obtain ⟨_, hinv, hi, hkey⟩ := IndexMapOf_set h hidx
          rw [mergeLoop, hidx]
          show (mergeLoop rest (next.set i issue) idx).find? _ = _
          rw [ih _ _ hinv k hk₂, find?_set_ne hi hkey hk₁]
      | none =>
          obtain ⟨hinv, _⟩ := IndexMapOf_append h hidx
          rw [mergeLoop, hidx]
          show (mergeLoop rest (next ++ [issue]) _).find? _ = _
          rw [ih _ _ hinv k hk₂, find?_append_single_ne hk₁]

theorem getLast?_cons_of_ne_nil {α : Type} {a : α} {l : List α} (h : l ≠ []) :
    (a :: l).getLast? = l.getLast? := by
  cases l with
  | nil => exact absurd rfl h
  | cons b t => exact List.getLast?_cons_cons

/-- Every key occurring in the incoming page looks up, after the merge
loop, the last incoming occurrence with that key. -/
theorem mergeLoop_find?_last (incoming : List Issue) :
    ∀ (next : List Issue) (idx : String → Option Nat), IndexMapOf next idx →
      ∀ k, k ∈ incoming.map Issue.key →
      (mergeLoop incoming next idx).find? (fun x => x.key == k) =
        (incoming.filter (fun x => x.key == k)).getLast? := by
  induction incoming with
  | nil => intro next idx _ k hk; exact absurd hk (by simp)
  | cons issue rest ih =>
      intro next idx h k hk
      by_cases hkr : k ∈ rest.map Issue.key
      · have hne : (rest.filter (fun x => x.key == k)) ≠ [] := by
          intro hnil
          obtain ⟨x, hx, hxk⟩ := List.mem_map.mp hkr
          have := List.filter_eq_nil_iff.mp hnil x hx
          simp [hxk] at this
        have htail : ((issue :: rest).filter (fun x => x.key == k)).getLast? =
            (rest.filter (fun x => x.key == k)).getLast? := by
          rw [List.filter_cons]
          split
          · exact getLast?_cons_of_ne_nil hne
          · rfl
        rw [htail]
        cases hidx : idx issue.key with
        | some i =>
            obtain ⟨_, hinv, _, _⟩ := IndexMapOf_set h hidx
            rw [mergeLoop, hidx]
            show (mergeLoop rest (next.set i issue) idx).find? _ = _
            exact ih _ _ hinv k hkr
        | none =>
            obtain ⟨hinv, _⟩ := IndexMapOf_append h hidx
            rw [mergeLoop, hidx]
            show (mergeLoop rest (next ++ [issue]) _).find? _ = _
            exact ih _ _ hinv k hkr
      · have hke : issue.key = k := by
          rcases List.mem_map.mp hk with ⟨x, hx, hxk⟩
          rcases List.mem_cons.mp hx with rfl | hxr
          · exact hxk
          · exact absurd (hxk ▸ List.mem_map_of_mem Issue.key hxr) hkr
        have hfil : rest.filter (fun x => x.key == k) = [] :=
          List.filter_eq_nil_iff.mpr (fun x hx => by
            have : ¬ x.key = k := fun he =>
              hkr (he ▸ List.mem_map_of_mem Issue.key hx)
            simp [this])
        have hlhs : ((issue :: rest).filter (fun x => x.key == k)).getLast? =
            some issue := by
          rw [List.filter_cons, if_pos (by simp [hke]), hfil]
          rfl
        rw [hlhs]
        have hkrest : issue.key ∉ rest.map Issue.key := hke ▸ hkr
        cases hidx : idx issue.key with
        | some i =>
            obtain ⟨_, hinv, hi, hkey⟩ := IndexMapOf_set h hidx
            rw [mergeLoop, hidx]
            show (mergeLoop rest (next.set i issue) idx).find? _ = _
            rw [mergeLoop_find?_not_mem rest _ _ hinv k (hke ▸ hkrest)]
            rw [← hke]
            exact find?_set_self hi h.1 hkey
        | none =>
            obtain ⟨hinv, hmem⟩ := IndexMapOf_append h hidx
            rw [mergeLoop, hidx]
            show (mergeLoop rest (next ++ [issue]) _).find? _ = _
            rw [mergeLoop_find?_not_mem rest _ _ hinv k (hke ▸ hkrest)]
            rw [← hke]
            exact find?_append_single_self hmem

/-- C10: merging an incoming page that repeats a key (current keys being
distinct) still yields a list with pairwise-distinct keys, and the entry
retained for an incoming key is the last incoming occurrence of that key —
earlier duplicates are overwritten in place at the already-recorded
position. -/
theorem C10_merge_duplicate_keys_last_wins (current incoming : List Issue)
    (hcur : (current.map Issue.key).Nodup) :
    ((mergeIssueLists current incoming).map Issue.key).Nodup ∧
      (∀ k, k ∈ incoming.map Issue.key →
        (mergeIssueLists current incoming).find? (fun x => x.key == k) =
          (incoming.filter (fun x => x.key == k)).getLast?) := by
  by_cases hz : incoming.length = 0
  · have hnil : incoming = [] := List.length_eq_zero.mp hz
    subst hnil
    have hm : mergeIssueLists current [] = current := rfl
    exact ⟨hm ▸ hcur, fun k hk => absurd hk (by simp)⟩
  · rw [mergeIssueLists, if_neg hz]
    exact ⟨mergeLoop_nodup _ _ _ (IndexMapOf_buildIndexMap hcur),
      fun k hk =>
        mergeLoop_find?_last _ _ _ (IndexMapOf_buildIndexMap hcur) k hk⟩

/-- Witness for C10: a page repeating key YT-1 merges into an empty list
with distinct keys, retaining the page's last YT-1 entry. -/
theorem C10_merge_duplicate_keys_last_wins_witness :
    ((mergeIssueLists []
          [⟨"YT-1", "first", "", ⟨"open", "Open"⟩, ⟨"normal", "Normal"⟩, none⟩,
           ⟨"YT-1", "second", "", ⟨"open", "Open"⟩, ⟨"normal", "Normal"⟩,
             none⟩]).map Issue.key).Nodup ∧
      (mergeIssueLists []
            [⟨"YT-1", "first", "", ⟨"open", "Open"⟩, ⟨"normal", "Normal"⟩, none⟩,
             ⟨"YT-1", "second", "", ⟨"open", "Open"⟩, ⟨"normal", "Normal"⟩,
               none⟩]).find? (fun x => x.key == "YT-1") =
        ([⟨"YT-1", "first", "", ⟨"open", "Open"⟩, ⟨"normal", "Normal"⟩, none⟩,
          ⟨"YT-1", "second", "", ⟨"open", "Open"⟩, ⟨"normal", "Normal"⟩,
            none⟩].filter
          (fun x : Issue => x.key == "YT-1")).getLast? :=
  ⟨(C10_merge_duplicate_keys_last_wins _ _ (by decide)).1,
    (C10_merge_duplicate_keys_last_wins _ _ (by decide)).2 "YT-1" (by decide)⟩

theorem requestIssuePage_hit {options : Option IssueSearchOptions}
    {scroll : Option String} {s : FetchState} {p : Nat}
    (h : s.issueFetchPromises (getIssueFetchKey options scroll) = some p) :
    requestIssuePage options scroll s = (p, s) := by
  unfold requestIssuePage
  rw [h]

theorem requestIssuePage_miss {options : Option IssueSearchOptions}
    {scroll : Option String} {s : FetchState}
    (h : s.issueFetchPromises (getIssueFetchKey options scroll) = none) :
    requestIssuePage options scroll s =
      (s.nextPromiseId,
        { issueFetchPromises := fun q =>
            if q = getIssueFetchKey options scroll then some s.nextPromiseId
            else s.issueFetchPromises q,
          nextPromiseId := s.nextPromiseId + 1,
          getIssuesInvokes :=
            s.getIssuesInvokes ++ [getIssueFetchKey options scroll] }) := by
  unfold requestIssuePage
  rw [h]

theorem requestMany_pending
    {calls : List (Option IssueSearchOptions × Option String)} {key : String}
    {p : Nat} :
    ∀ s : FetchState, s.issueFetchPromises key = some p →
      (∀ c ∈ calls, getIssueFetchKey c.1 c.2 = key) →
      requestMany calls s = (List.replicate calls.length p, s) := by
  induction calls with
  | nil => intro s _ _; rfl
  | cons c rest ih =>
      intro s hp hkeys
      have hck : getIssueFetchKey c.1 c.2 = key := hkeys c (by simp)
      have hhit : s.issueFetchPromises (getIssueFetchKey c.1 c.2) = some p := by
        rw [hck]; exact hp
      rw [requestMany, requestIssuePage_hit hhit,
        ih s hp (fun d hd => hkeys d (by simp [hd]))]
      rfl

/-- C1: N ≥ 2 calls to `requestIssuePage` with the same canonical fetch
key, all issued before the first promise settles, cause exactly one
`get_issues` invoke, and every caller receives the same shared promise —
hence the identical outcome (the same success value or the same failure)
under any resolution of that promise. -/
theorem C1_coalescing_single_invoke
    (calls : List (Option IssueSearchOptions × Option String)) (s : FetchState)
    (key : String) (h2 : 2 ≤ calls.length)
    (hkeys : ∀ c ∈ calls, getIssueFetchKey c.1 c.2 = key)
    (hnone : s.issueFetchPromises key = none) :
    (requestMany calls s).2.getIssuesInvokes.length =
        s.getIssuesInvokes.length + 1 ∧
      (requestMany calls s).1.length = calls.length ∧
      (∀ p ∈ (requestMany calls s).1, ∀ q ∈ (requestMany calls s).1, p = q) ∧
      (∀ outcome : Nat → Except String IssuePage,
        ∀ p ∈ (requestMany calls s).1, ∀ q ∈ (requestMany calls s).1,
          outcome p = outcome q) := by
  cases calls with
  | nil => simp at h2
  | cons c rest =>
      have hck : getIssueFetchKey c.1 c.2 = key := hkeys c (by simp)
      have hmiss : s.issueFetchPromises (getIssueFetchKey c.1 c.2) = none := by
        rw [hck]; exact hnone
      have hstep := requestIssuePage_miss hmiss
      have hpend :
          ((requestIssuePage c.1 c.2 s).2).issueFetchPromises key =
            some s.nextPromiseId := by
        rw [hstep]
        simp [hck]
      have hrest := @requestMany_pending rest key s.nextPromiseId
        ((requestIssuePage c.1 c.2 s).2) hpend
        (fun d hd => hkeys d (by simp [hd]))
      have hunfold : requestMany (c :: rest) s =
          ((requestIssuePage c.1 c.2 s).1 ::
              (requestMany rest (requestIssuePage c.1 c.2 s).2).1,
            (requestMany rest (requestIssuePage c.1 c.2 s).2).2) := rfl
      rw [hunfold, hrest, hstep]
      refine ⟨by simp, by simp, ?_, ?_⟩
      · intro p hp q hq
        simp only [List.mem_cons, List.eq_of_mem_replicate] at hp hq
        have hp' : p = s.nextPromiseId := by
          rcases hp with rfl | hp
          · rfl
          · exact List.eq_of_mem_replicate hp
        have hq' : q = s.nextPromiseId := by
          rcases hq with rfl | hq
          · rfl
          · exact List.eq_of_mem_replicate hq
        rw [hp', hq']
      · intro outcome p hp q hq
        have hp' : p = s.nextPromiseId := by
          rcases List.mem_cons.mp hp with rfl | hpr
          · rfl
          · exact List.eq_of_mem_replicate hpr
        have hq' : q = s.nextPromiseId := by
          rcases List.mem_cons.mp hq with rfl | hqr
          · rfl
          · exact List.eq_of_mem_replicate hqr
        rw [hp', hq']

/-- Witness for C1: two concurrent default-key calls on a fresh state
produce one `get_issues` invoke and equal shared promises. -/
theorem C1_coalescing_single_invoke_witness :
    (requestMany [(none, none), (none, none)]
          ⟨fun _ => none, 0, []⟩).2.getIssuesInvokes.length =
        ([] : List String).length + 1 ∧
      (requestMany [(none, none), (none, none)]
          ⟨fun _ => none, 0, []⟩).1.length = 2 ∧
      (∀ p ∈ (requestMany [(none, none), (none, none)]
          ⟨fun _ => none, 0, []⟩).1,
        ∀ q ∈ (requestMany [(none, none), (none, none)]
          ⟨fun _ => none, 0, []⟩).1, p = q) ∧
      (∀ outcome : Nat → Except String IssuePage,
        ∀ p ∈ (requestMany [(none, none), (none, none)]
            ⟨fun _ => none, 0, []⟩).1,
          ∀ q ∈ (requestMany [(none, none), (none, none)]
            ⟨fun _ => none, 0, []⟩).1, outcome p = outcome q) :=
  C1_coalescing_single_invoke [(none, none), (none, none)]
    ⟨fun _ => none, 0, []⟩ (getIssueFetchKey none none) (by simp)
    (by
      intro c hc
      rcases List.mem_cons.mp hc with rfl | hc
      · rfl
      · rcases List.mem_cons.mp hc with rfl | hc
        · rfl
        · exact absurd hc (by simp))
    rfl

/-- C2 is false on the code: with a K1 root search in flight, a K2 search
is issued and resolves (list shows K2's page), and then the late K1
response arrives — `fetchIssues` has no session-currency check, so the K1
completion overwrites the K2 list.  The two canonical keys differ, the
intermediate list is K2's, and the final list is K1's. -/
theorem C2_counterexample :
    getIssueFetchKey (normalizeIssueOptions (some optionsK1)) none ≠
        getIssueFetchKey (normalizeIssueOptions (some optionsK2)) none ∧
      (fetchIssuesComplete (Except.ok pageK2)
          (fetchIssuesStart (some (some optionsK2))
            (fetchIssuesStart (some (some optionsK1))
              initialTrackerState).1).1).1.issues = pageK2.issues ∧
      (fetchIssuesComplete (Except.ok pageK1)
          (fetchIssuesComplete (Except.ok pageK2)
            (fetchIssuesStart (some (some optionsK2))
              (fetchIssuesStart (some (some optionsK1))
                initialTrackerState).1).1).1).1.issues = pageK1.issues ∧
      pageK1.issues ≠ pageK2.issues := by
  refine ⟨by decide, rfl, rfl, by decide⟩

/-- C2 amended: the completion handler of a root search applies the
arriving page unconditionally — whichever response arrives last determines
the materialized list, cursor and hasMore; a superseded session's response
is applied, not discarded. -/
theorem C2_amended_last_arrival_wins (s : TrackerState) (page : IssuePage) :
    (fetchIssuesComplete (Except.ok page) s).1.issues = page.issues ∧
      (fetchIssuesComplete (Except.ok page) s).1.hasMore = page.hasMore ∧
      (fetchIssuesComplete (Except.ok page) s).1.nextScrollId =
        page.nextScrollId :=
  ⟨rfl, rfl, rfl⟩

/-- C5: a failed root search leaves the empty no-results state (empty
list, hasMore false) with the error surfaced and `false` returned; a
failed loadMore (entered with a held cursor and nothing in flight) leaves
the previously merged list and the held cursor untouched, surfacing the
error. -/
theorem C5_failure_leaves_list_state :
    (∀ (arg : Option (Option IssueSearchOptions)) (s : TrackerState)
        (e : String),
        (fetchIssuesComplete (Except.error e)
            (fetchIssuesStart arg s).1).1.issues = [] ∧
        (fetchIssuesComplete (Except.error e)
            (fetchIssuesStart arg s).1).1.hasMore = false ∧
        (fetchIssuesComplete (Except.error e)
            (fetchIssuesStart arg s).1).1.error = some e ∧
        (fetchIssuesComplete (Except.error e)
            (fetchIssuesStart arg s).1).2 = false) ∧
    (∀ (s : TrackerState) (e sid : String),
        s.loading = false → s.loadingMore = false →
        s.nextScrollId = some sid → sid.isEmpty = false →
        (loadMoreStart s).2 = some sid ∧
        (loadMoreComplete (Except.error e) (loadMoreStart s).1).1.issues =
            s.issues ∧
        (loadMoreComplete (Except.error e)
            (loadMoreStart s).1).1.nextScrollId = s.nextScrollId ∧
        (loadMoreComplete (Except.error e) (loadMoreStart s).1).1.error =
            some e ∧
        (loadMoreComplete (Except.error e) (loadMoreStart s).1).2 = false) := by
  constructor
  · intro arg s e
    exact ⟨rfl, rfl, rfl, rfl⟩
  · intro s e sid hl hlm hsid hne
    have hstart : loadMoreStart s =
        ({ s with loadingMore := true, error := none }, some sid) := by
      simp [loadMoreStart, hl, hlm, hsid, hne]
    rw [hstart]
    exact ⟨rfl, rfl, rfl, rfl, rfl⟩

/-- Witness for C5: a failed loadMore from a state holding list [K1-1] and
cursor c1 keeps both and surfaces the error. -/
theorem C5_failure_leaves_list_state_witness :
    (loadMoreStart ⟨pageK1.issues, false, false, none, true, none,
        some "c1", []⟩).2 = some "c1" ∧
      (loadMoreComplete (Except.error "boom")
          (loadMoreStart ⟨pageK1.issues, false, false, none, true, none,
            some "c1", []⟩).1).1.issues = pageK1.issues ∧
      (loadMoreComplete (Except.error "boom")
          (loadMoreStart ⟨pageK1.issues, false, false, none, true, none,
            some "c1", []⟩).1).1.nextScrollId = some "c1" ∧
      (loadMoreComplete (Except.error "boom")
          (loadMoreStart ⟨pageK1.issues, false, false, none, true, none,
            some "c1", []⟩).1).1.error = some "boom" ∧
      (loadMoreComplete (Except.error "boom")
          (loadMoreStart ⟨pageK1.issues, false, false, none, true, none,
            some "c1", []⟩).1).2 = false :=
  C5_failure_leaves_list_state.2
    ⟨pageK1.issues, false, false, none, true, none, some "c1", []⟩
    "boom" "c1" rfl rfl rfl rfl

/-- C9: each push snapshot wholly replaces the held timer state, so after
any event sequence the held state is the last event's payload; once an
event is observed, the held state depends only on it and later events
(never regressing to an earlier snapshot); in particular elapsed=120
followed by elapsed=125 leaves 125. -/
theorem C9_timer_push_replaces :
    (∀ (s : TimerState) (events : List TimerState) (e : TimerState),
        processTimerEvents s (events ++ [e]) = e) ∧
      (∀ (s : TimerState) (pre : List TimerState) (e : TimerState)
          (post : List TimerState),
          processTimerEvents s (pre ++ e :: post) = processTimerEvents e post) ∧
      processTimerEvents ⟨false, none, none, none, 0⟩
          [⟨true, some "YT-1", none, some 0, 120⟩,
            ⟨true, some "YT-1", none, some 0, 125⟩] =
        ⟨true, some "YT-1", none, some 0, 125⟩ := by
  refine ⟨?_, ?_, rfl⟩
  · intro s events e
    rw [processTimerEvents, List.foldl_append]
    rfl
  · intro s pre e post
    rw [processTimerEvents, List.foldl_append]
    rfl

/-- C6: a detail-cache read strictly within the TTL of a prior successful
fetch (no force) returns the cached data with zero remote calls and leaves
the map untouched; a read at or after TTL expiry invokes the fetcher
exactly once and, on success, stores the fresh result; a failing fetcher
stores nothing — the slot is either unchanged or merely dropped-as-stale,
every other slot is untouched, and the error propagates. -/
theorem C6_detail_cache_ttl {T E : Type} (m : CMap T) (key : String)
    (entry : CacheEntry T) (now : Nat) (fr : Except E T) :
    (m key = some entry → now - entry.timestamp < CACHE_TTL_MS →
      fetchWithCache m key now fr false = (.ok entry.data, m, 0)) ∧
    (m key = some entry → CACHE_TTL_MS ≤ now - entry.timestamp →
      (fetchWithCache m key now fr false).2.2 = 1 ∧
      (∀ d : T, fr = .ok d →
        (fetchWithCache m key now fr false).1 = .ok d ∧
        (fetchWithCache m key now fr false).2.1 key = some ⟨d, now⟩)) ∧
    (∀ e : E, fr = .error e →
      (fetchWithCache m key now fr true).1 = .error e ∧
      (fetchWithCache m key now fr true).2.1 = m) ∧
    (∀ e : E, fr = .error e → ¬ isFresh now (m key) = true →
      (fetchWithCache m key now fr false).1 = .error e ∧
      ((fetchWithCache m key now fr false).2.1 key = m key ∨
        (fetchWithCache m key now fr false).2.1 key = none) ∧
      (∀ q, q ≠ key →
        (fetchWithCache m key now fr false).2.1 q = m q) ∧
      (fetchWithCache m key now fr false).2.2 = 1) := by
  refine ⟨?_, ?_, ?_, ?_⟩
  · intro hm hf
    simp [fetchWithCache, getFreshCache, isFresh, hm, hf]
  · intro hm hs
    have hnf : ¬ now - entry.timestamp < CACHE_TTL_MS := not_lt.mpr hs
    constructor
    · cases fr with
      | ok d => simp [fetchWithCache, getFreshCache, isFresh, hm, hnf]
      | error e => simp [fetchWithCache, getFreshCache, isFresh, hm, hnf]
    · intro d hd
      subst hd
      constructor
      · simp [fetchWithCache, getFreshCache, isFresh, hm, hnf]
      · simp [fetchWithCache, getFreshCache, isFresh, hm, hnf, setCache]
  · intro e he
    subst he
    exact ⟨rfl, rfl⟩
  · intro e he hstale
    subst he
    cases hm : m key with
    | none =>
        refine ⟨?_, Or.inl ?_, ?_, ?_⟩ <;>
          simp [fetchWithCache, getFreshCache, hm]
    | some entry₂ =>
        have hnf : isFresh now (some entry₂) = false := by
          rw [hm] at hstale
          simpa using hstale
        refine ⟨?_, Or.inr ?_, ?_, ?_⟩
        · simp [fetchWithCache, getFreshCache, hm, hnf]
        · simp [fetchWithCache, getFreshCache, hm, hnf]
        · intro q hq
          simp [fetchWithCache, getFreshCache, hm, hnf, hq]
        · simp [fetchWithCache, getFreshCache, hm, hnf]

/-- Witness for C6: within-TTL hit at 100ms after a fetch at time 0
returns the cached list with zero fetcher calls. -/
theorem C6_detail_cache_ttl_witness :
    fetchWithCache
        (fun q => if q = "YT-1" then
            some (⟨["c1"], 0⟩ : CacheEntry (List String)) else none)
        "YT-1" 100 (Except.error "unused") false =
      (Except.ok ["c1"],
        (fun q => if q = "YT-1" then
            some (⟨["c1"], 0⟩ : CacheEntry (List String)) else none), 0) :=
  (C6_detail_cache_ttl
      (fun q => if q = "YT-1" then
          some (⟨["c1"], 0⟩ : CacheEntry (List String)) else none)
      "YT-1" ⟨["c1"], 0⟩ 100
      (Except.error "unused" : Except String (List String))).1
    (by simp) (by decide)

theorem clearedAt_mapDelete {T : Type} (m : CMap T) (key : String) :
    ClearedAt m (mapDelete m key) key :=
  ⟨by simp [mapDelete], fun q hq => by simp [mapDelete, hq]⟩

/-- C7: each mutation, when its remote call succeeds, clears exactly the
one slot it changed for exactly the targeted issue — every other issue's
entry in that slot and all four other slots are untouched — and when the
remote call fails nothing is invalidated and the error propagates. -/
theorem C7_mutations_invalidate_exactly_one_slot {E R : Type}
    (issueKey : String) (r : R) (e : E) (c : DetailCache) :
    (ClearedAt c.comments (addComment issueKey (Except.ok r : Except E R) c).2.comments
        issueKey ∧
      (addComment issueKey (Except.ok r : Except E R) c).2.attachments = c.attachments ∧
      (addComment issueKey (Except.ok r : Except E R) c).2.transitions = c.transitions ∧
      (addComment issueKey (Except.ok r : Except E R) c).2.worklogs = c.worklogs ∧
      (addComment issueKey (Except.ok r : Except E R) c).2.checklist = c.checklist ∧
      (addComment issueKey (Except.ok r : Except E R) c).1 = Except.ok r) ∧
    addComment issueKey (Except.error e : Except E R) c = (Except.error e, c) ∧
    (ClearedAt c.transitions
        (executeTransition issueKey (Except.ok r : Except E R) c).2.transitions issueKey ∧
      (executeTransition issueKey (Except.ok r : Except E R) c).2.comments = c.comments ∧
      (executeTransition issueKey (Except.ok r : Except E R) c).2.attachments =
          c.attachments ∧
      (executeTransition issueKey (Except.ok r : Except E R) c).2.worklogs = c.worklogs ∧
      (executeTransition issueKey (Except.ok r : Except E R) c).2.checklist = c.checklist ∧
      (executeTransition issueKey (Except.ok r : Except E R) c).1 = Except.ok r) ∧
    executeTransition issueKey (Except.error e : Except E R) c = (Except.error e, c) ∧
    (ClearedAt c.checklist
        (addChecklistItem issueKey (Except.ok r : Except E R) c).2.checklist issueKey ∧
      (addChecklistItem issueKey (Except.ok r : Except E R) c).2.comments = c.comments ∧
      (addChecklistItem issueKey (Except.ok r : Except E R) c).2.attachments =
          c.attachments ∧
      (addChecklistItem issueKey (Except.ok r : Except E R) c).2.transitions =
          c.transitions ∧
      (addChecklistItem issueKey (Except.ok r : Except E R) c).2.worklogs = c.worklogs) ∧
    addChecklistItem issueKey (Except.error e : Except E R) c = (Except.error e, c) ∧
    (editChecklistItem issueKey (Except.ok r : Except E R) c =
        addChecklistItem issueKey (Except.ok r : Except E R) c ∧
      deleteChecklistItem issueKey (Except.ok r : Except E R) c =
        addChecklistItem issueKey (Except.ok r : Except E R) c ∧
      deleteChecklist issueKey (Except.ok r : Except E R) c =
        addChecklistItem issueKey (Except.ok r : Except E R) c) ∧
    editChecklistItem issueKey (Except.error e : Except E R) c = (Except.error e, c) ∧
    deleteChecklistItem issueKey (Except.error e : Except E R) c = (Except.error e, c) ∧
    deleteChecklist issueKey (Except.error e : Except E R) c = (Except.error e, c) := by
  refine ⟨⟨?_, rfl, rfl, rfl, rfl, rfl⟩, rfl,
    ⟨?_, rfl, rfl, rfl, rfl, rfl⟩, rfl,
    ⟨?_, rfl, rfl, rfl, rfl⟩, rfl, ⟨rfl, rfl, rfl⟩, rfl, rfl, rfl⟩
  · exact clearedAt_mapDelete c.comments issueKey
  · exact clearedAt_mapDelete c.transitions issueKey
  · exact clearedAt_mapDelete c.checklist issueKey

/-- Witness for C7: adding a comment to YT-1 on an empty cache clears the
YT-1 comments entry and leaves a different issue's comments entry alone. -/
theorem C7_mutations_invalidate_exactly_one_slot_witness :
    ((addComment "YT-1" (Except.ok 0 : Except String Nat)
          (⟨fun _ => none, fun _ => none, fun _ => none, fun _ => none,
            fun _ => none⟩ : DetailCache)).2.comments "YT-1" = none ∧
        (addComment "YT-1" (Except.ok 0 : Except String Nat)
            (⟨fun _ => none, fun _ => none, fun _ => none, fun _ => none,
              fun _ => none⟩ : DetailCache)).2.comments "YT-2" =
          (⟨fun _ => none, fun _ => none, fun _ => none, fun _ => none,
            fun _ => none⟩ : DetailCache).comments "YT-2") ∧
      addComment "YT-1" (Except.error "boom" : Except String Nat)
          (⟨fun _ => none, fun _ => none, fun _ => none, fun _ => none,
            fun _ => none⟩ : DetailCache) =
        (Except.error "boom",
          (⟨fun _ => none, fun _ => none, fun _ => none, fun _ => none,
            fun _ => none⟩ : DetailCache)) :=
  ⟨⟨(C7_mutations_invalidate_exactly_one_slot "YT-1" (0 : Nat) "boom"
        ⟨fun _ => none, fun _ => none, fun _ => none, fun _ => none,
          fun _ => none⟩).1.1.1,
      (C7_mutations_invalidate_exactly_one_slot "YT-1" (0 : Nat) "boom"
          ⟨fun _ => none, fun _ => none, fun _ => none, fun _ => none,
            fun _ => none⟩).1.1.2 "YT-2" (by decide)⟩,
    (C7_mutations_invalidate_exactly_one_slot "YT-1" (0 : Nat) "boom"
        ⟨fun _ => none, fun _ => none, fun _ => none, fun _ => none,
          fun _ => none⟩).2.1⟩

/-- C8 is false on the code: the scalar catalog caches carry no timestamp
and the getters consult no clock, so a get issued after the TTL bound (or
any amount of time) since the last successful fetch still returns the
cached value and issues no new remote fetch.  Concretely: after one
fetched-and-settled statuses catalog, a later `getStatuses` returns the
cached catalog and the invoke count stays at the original 1 — the state
(which is all the program keeps) is time-independent, so this holds at
every later instant, including past `CACHE_TTL_MS`. -/
theorem C8_scalar_cache_counterexample :
    getStatuses
        (settleStatuses (Except.ok ["open"])
          (getStatuses
            (⟨none, none, 0, 0⟩ : ScalarCacheState (List String))).2) =
      (ScalarFetchResult.value ["open"],
        settleStatuses (Except.ok ["open"])
          (getStatuses
            (⟨none, none, 0, 0⟩ : ScalarCacheState (List String))).2) ∧
      (settleStatuses (Except.ok ["open"])
          (getStatuses
            (⟨none, none, 0, 0⟩ : ScalarCacheState (List String))).2).invokes
        = 1 ∧
      (getStatuses
          (settleStatuses (Except.ok ["open"])
            (getStatuses
              (⟨none, none, 0, 0⟩ :
                ScalarCacheState (List String))).2)).2.invokes = 1 :=
  ⟨rfl, rfl, rfl⟩

/-- C8 amended: the scalar catalog caches have no TTL — once a catalog is
cached, every later get (at any elapsed time) returns the cached value
with the state, and hence the remote-invoke count, unchanged; a new remote
fetch happens only when nothing is cached, or, for the directory caches,
when `force` is passed. -/
theorem C8_scalar_cache_no_ttl {T : Type} (s : ScalarCacheState T) (d : T)
    (h : s.cached = some d) :
    getStatuses s = (ScalarFetchResult.value d, s) ∧
      fetchQueuesDirectory false s = (ScalarFetchResult.value d, s) := by
  constructor
  · rw [getStatuses, h]
  · rw [fetchQueuesDirectory, if_neg (by simp), h]

/-- Witness for C8's amended claim: a state caching one queue directory
returns it from both getters with no state change. -/
theorem C8_scalar_cache_no_ttl_witness :
    getStatuses (⟨some ["Q1"], none, 1, 1⟩ : ScalarCacheState (List String)) =
        (ScalarFetchResult.value ["Q1"], ⟨some ["Q1"], none, 1, 1⟩) ∧
      fetchQueuesDirectory false
          (⟨some ["Q1"], none, 1, 1⟩ : ScalarCacheState (List String)) =
        (ScalarFetchResult.value ["Q1"], ⟨some ["Q1"], none, 1, 1⟩) :=
  C8_scalar_cache_no_ttl
    (⟨some ["Q1"], none, 1, 1⟩ : ScalarCacheState (List String)) ["Q1"] rfl

end YTracker
